import Mathlib

/-!
Shallow embedding of the spice-simulator MNA stamp engine.

Source of truth: `src/spice-simulator/ConductanceMatrix.cpp` (the stamp engine) and
`src/spice-simulator/Component.h` (the component class hierarchy).  C++ `double` is
modelled as `ℝ`, `std::complex<double>` as `ℂ`, C++ `int` as `ℤ`.  Eigen's
`MatrixXcd` / `VectorXcd` are modelled as total functions `ℤ → ℤ → ℂ` / `ℤ → ℂ`
(Eigen coefficient access performs no bounds checks; in-bounds access is treated
as a separate safety property over an instrumented access trace).

The bodies of the `Component` virtual overrides (`getNodes`, `getProperties`,
`getConductance`) live in a `Component.cpp` that is not part of the sources;
those accessors are modelled from the spec (each such definition is marked
`Modelled from the spec:` in its doc comment).  Everything in
`ConductanceMatrix.cpp` is translated directly from the source.
-/

noncomputable section

namespace SpiceSim

/-- Models `std::polar(r, theta) = r * (cos theta + i * sin theta)`. -/
def polar (r theta : ℝ) : ℂ :=
  Complex.mk (r * Real.cos theta) (r * Real.sin theta)

/-- The component class hierarchy of `Component.h`, as a sum type.  The linear and
source variants that the stamp engine of `ConductanceMatrix.cpp` dispatches on are
covered; each constructor carries exactly the fields of the corresponding class
(name, scalar parameters, terminal node ids as C++ `int` = `ℤ`). -/
inductive Component where
  | Resistor (name : String) (resistance : ℝ) (node1 node2 : ℤ)
  | Capacitor (name : String) (capacitance : ℝ) (node1 node2 : ℤ)
  | Inductor (name : String) (inductance : ℝ) (node1 node2 : ℤ)
  | DCVoltageSource (name : String) (voltage : ℝ) (nodePlus nodeMinus : ℤ)
  | ACVoltageSource (name : String) (amplitude phase : ℝ) (nodePlus nodeMinus : ℤ)
  | DCCurrentSource (name : String) (current : ℝ) (nodeIn nodeOut : ℤ)
  | ACCurrentSource (name : String) (amplitude phase : ℝ) (nodeIn nodeOut : ℤ)
  | VoltageControlledCurrentSource (name : String) (transconductance : ℝ)
      (nodeIn nodeOut controlNodeIn controlNodeOut : ℤ)

/-- Modelled from the spec: `getNodes` is implemented outside the given sources
(`Component.cpp` is absent).  Spec section 3 fixes the terminal lists and their
order (`n+, n−` for voltage sources; `nIn, nOut` for current sources — matching
the source comment "Input at 0, Output at 1"; four terminals, output pair then
control pair, for the VCCS). -/
def getNodes : Component → List ℤ
  | .Resistor _ _ n1 n2 => [n1, n2]
  | .Capacitor _ _ n1 n2 => [n1, n2]
  | .Inductor _ _ n1 n2 => [n1, n2]
  | .DCVoltageSource _ _ np nm => [np, nm]
  | .ACVoltageSource _ _ _ np nm => [np, nm]
  | .DCCurrentSource _ _ ni no => [ni, no]
  | .ACCurrentSource _ _ _ ni no => [ni, no]
  | .VoltageControlledCurrentSource _ _ ni no ci co => [ni, no, ci, co]

/-- Modelled from the spec: `getProperties` is implemented outside the given
sources.  Spec section 9 ("Property bags as positional double arrays") fixes the
positional layout, e.g. index 0 = amplitude, index 1 = phase for AC sources,
index 0 = the single scalar parameter otherwise. -/
def getProperties : Component → List ℝ
  | .Resistor _ r _ _ => [r]
  | .Capacitor _ c _ _ => [c]
  | .Inductor _ l _ _ => [l]
  | .DCVoltageSource _ v _ _ => [v]
  | .ACVoltageSource _ a p _ _ => [a, p]
  | .DCCurrentSource _ i _ _ => [i]
  | .ACCurrentSource _ a p _ _ => [a, p]
  | .VoltageControlledCurrentSource _ gm _ _ _ _ => [gm]

/-- Modelled from the spec: `getConductance` is implemented outside the given
sources.  Spec section 3 gives the admittances of the linear two-terminal
devices: resistor `1/R`, capacitor `jωC`, inductor `1/(jωL)`; the admittance of
a two-terminal device between its nodes does not depend on the order in which
the two nodes are passed.  The stamp engine never calls `getConductance` on
source variants or on the VCCS (they are dispatched away before the two-terminal
handler); those cases are modelled as 0. -/
def getConductance (c : Component) (_node1 _node2 : ℤ) (angularFrequency : ℝ) : ℂ :=
  match c with
  | .Resistor _ r _ _ => 1 / (r : ℂ)
  | .Capacitor _ cap _ _ => Complex.I * (angularFrequency : ℂ) * (cap : ℂ)
  | .Inductor _ l _ _ => 1 / (Complex.I * (angularFrequency : ℂ) * (l : ℂ))
  | _ => 0

/-- Eigen `MatrixXcd`, as a total function on C++ `int` indices. -/
abbrev CMatrix := ℤ → ℤ → ℂ

/-- Eigen `VectorXcd`, as a total function on C++ `int` indices. -/
abbrev CVector := ℤ → ℂ

/-- Eigen `M(i, j) += x` (also `-=`, with `x` negated). -/
def addEntry (m : CMatrix) (i j : ℤ) (x : ℂ) : CMatrix :=
  fun a b => if a = i ∧ b = j then m a b + x else m a b

/-- Eigen `M(i, j) = x`. -/
def setEntry (m : CMatrix) (i j : ℤ) (x : ℂ) : CMatrix :=
  fun a b => if a = i ∧ b = j then x else m a b

/-- Eigen `M.row(r) -= M.row(r)` (the idiom `ConductanceMatrix.cpp` uses to zero a
row; over exact complex numbers the row becomes 0). -/
def subSelfRow (m : CMatrix) (r : ℤ) : CMatrix :=
  fun a b => if a = r then m a b - m a b else m a b

/-- Eigen `v(i) += x`. -/
def addVecEntry (v : CVector) (i : ℤ) (x : ℂ) : CVector :=
  fun a => if a = i then v a + x else v a

/-- Eigen `v(i) = x`. -/
def setVecEntry (v : CVector) (i : ℤ) (x : ℂ) : CVector :=
  fun a => if a = i then x else v a

/-- `matrixHandleTwoTerminalComponent` (ConductanceMatrix.cpp lines 8–23).
The first C++ condition is `nodes[0] != 0 && nodes[1 != 0]`: since `1 != 0` is
`true`, which indexes element 1, and the `int` `nodes[1]` is then converted to
`bool` (nonzero = true), its semantics is `nodes[0] != 0 && nodes[1] != 0`,
which is what is embedded here. -/
def matrixHandleTwoTerminalComponent (conductanceMatrix : CMatrix) (component : Component)
    (nodes : List ℤ) (angFreq : ℝ) : CMatrix :=
  let m1 :=
    if nodes.getD 0 0 ≠ 0 ∧ nodes.getD 1 0 ≠ 0 then
      addEntry
        (addEntry conductanceMatrix (nodes.getD 0 0 - 1) (nodes.getD 1 0 - 1)
          (-(getConductance component (nodes.getD 0 0) (nodes.getD 1 0) angFreq)))
        (nodes.getD 1 0 - 1) (nodes.getD 0 0 - 1)
        (-(getConductance component (nodes.getD 1 0) (nodes.getD 0 0) angFreq))
    else conductanceMatrix
  let m2 :=
    if nodes.getD 0 0 ≠ 0 then
      addEntry m1 (nodes.getD 0 0 - 1) (nodes.getD 0 0 - 1)
        (getConductance component (nodes.getD 0 0) (nodes.getD 1 0) angFreq)
    else m1
  if nodes.getD 1 0 ≠ 0 then
    addEntry m2 (nodes.getD 1 0 - 1) (nodes.getD 1 0 - 1)
      (getConductance component (nodes.getD 1 0) (nodes.getD 0 0) angFreq)
  else m2

/-- `matrixHandleVoltageSource` (ConductanceMatrix.cpp lines 28–49). -/
def matrixHandleVoltageSource (conductanceMatrix : CMatrix) (component : Component) : CMatrix :=
  let nodes := getNodes component
  let nodePlus := nodes.getD 0 0
  let nodeMinus := nodes.getD 1 0
  if nodePlus = nodeMinus then conductanceMatrix
  else if nodePlus ≠ 0 ∧ nodeMinus ≠ 0 then
    setEntry
      (setEntry (subSelfRow conductanceMatrix (nodePlus - 1)) (nodePlus - 1) (nodePlus - 1) 1)
      (nodePlus - 1) (nodeMinus - 1) (-1)
  else if nodePlus ≠ 0 ∧ nodeMinus = 0 then
    setEntry (subSelfRow conductanceMatrix (nodePlus - 1)) (nodePlus - 1) (nodePlus - 1) 1
  else if nodePlus = 0 ∧ nodeMinus ≠ 0 then
    setEntry (subSelfRow conductanceMatrix (nodeMinus - 1)) (nodeMinus - 1) (nodeMinus - 1) (-1)
  else conductanceMatrix

/-- `updateConductanceMatrix` (ConductanceMatrix.cpp lines 54–72).  The C++
`typeid` dispatch chain becomes a match; the `bool& isVoltageSource` out-parameter
(reset to `false` by the caller before each call) becomes the second component of
the returned pair. -/
def updateConductanceMatrix (conductanceMatrix : CMatrix) (component : Component)
    (angFreq : ℝ) : CMatrix × Bool :=
  match component with
  | .DCCurrentSource .. => (conductanceMatrix, false)
  | .ACCurrentSource .. => (conductanceMatrix, false)
  | .DCVoltageSource .. => (conductanceMatrix, true)
  | .ACVoltageSource .. => (conductanceMatrix, true)
  | c =>
    let nodes := getNodes c
    if nodes.length = 2 then
      (matrixHandleTwoTerminalComponent conductanceMatrix c nodes angFreq, false)
    else (conductanceMatrix, false)

/-- The first loop of `getConductanceMatrix` (ConductanceMatrix.cpp lines 82–86):
`i` is the running loop counter, `vs` the `voltageSources` vector of collected
indices. -/
def getConductanceMatrixLoop : List Component → ℝ → CMatrix → List ℕ → ℕ → CMatrix × List ℕ
  | [], _, m, vs, _ => (m, vs)
  | c :: rest, angFreq, m, vs, i =>
    let st := updateConductanceMatrix m c angFreq
    getConductanceMatrixLoop rest angFreq st.1 (if st.2 then vs ++ [i] else vs) (i + 1)

/-- Arbitrary component used as the `List.getD` default: C++ `components[i]` with
`i` out of range is undefined behaviour; the loops below only index below
`components.size()`. -/
def junkComponent : Component := .Resistor "" 0 0 0

/-- `getConductanceMatrix` (ConductanceMatrix.cpp lines 77–93).  Note the second
loop applies `matrixHandleVoltageSource` to `components[i]` — the loop counter
over `voltageSources.size()` — exactly as the source does (it does not index
`components[voltageSources[i]]`). -/
def getConductanceMatrix (components : List Component) (numNodes : ℤ) (angFreq : ℝ) : CMatrix :=
  let firstPass := getConductanceMatrixLoop components angFreq (fun _ _ => 0) [] 0
  (List.range firstPass.2.length).foldl
    (fun m i => matrixHandleVoltageSource m (components.getD i junkComponent))
    firstPass.1

/-- `vectorHandleACCurrentSource` (ConductanceMatrix.cpp lines 98–112). -/
def vectorHandleACCurrentSource (currentVector : CVector) (component : Component) : CVector :=
  let nodes := getNodes component
  let amplitude := (getProperties component).getD 0 0
  let phase := (getProperties component).getD 1 0
  let current : ℂ := polar amplitude phase
  let v1 :=
    if nodes.getD 0 0 ≠ 0 then addVecEntry currentVector (nodes.getD 0 0 - 1) (-current)
    else currentVector
  if nodes.getD 1 0 ≠ 0 then addVecEntry v1 (nodes.getD 1 0 - 1) current
  else v1

/-- `vectorHandleVoltageSource` (ConductanceMatrix.cpp lines 117–145).  `isDC`
is the `typeid(*component) == typeid(DCVoltageSource)` test; in the DC branches
the entry is assigned the literal 0, in the AC branches the phasor
`std::polar(amplitude, phase)`. -/
def vectorHandleVoltageSource (currentVector : CVector) (component : Component) : CVector :=
  let isDC : Bool := match component with | .DCVoltageSource .. => true | _ => false
  let properties := getProperties component
  let voltage : ℂ :=
    if isDC then ((properties.getD 0 0 : ℝ) : ℂ)
    else polar (properties.getD 0 0) (properties.getD 1 0)
  let nodes := getNodes component
  let nodePlus := nodes.getD 0 0
  let nodeMinus := nodes.getD 1 0
  if nodePlus = nodeMinus then currentVector
  else if nodePlus = 0 then
    setVecEntry currentVector (nodeMinus - 1) (if isDC then 0 else voltage)
  else
    setVecEntry currentVector (nodePlus - 1) (if isDC then 0 else voltage)

/-- `updateCurrentVector` (ConductanceMatrix.cpp lines 150–158): only AC current
sources touch the vector in the first pass; DC and AC voltage sources merely set
the flag. -/
def updateCurrentVector (currentVector : CVector) (component : Component) : CVector × Bool :=
  match component with
  | .ACCurrentSource .. => (vectorHandleACCurrentSource currentVector component, false)
  | .DCVoltageSource .. => (currentVector, true)
  | .ACVoltageSource .. => (currentVector, true)
  | _ => (currentVector, false)

/-- The first loop of `getCurrentVector` (ConductanceMatrix.cpp lines 168–172). -/
def getCurrentVectorLoop : List Component → CVector → List ℕ → ℕ → CVector × List ℕ
  | [], v, vs, _ => (v, vs)
  | c :: rest, v, vs, i =>
    let st := updateCurrentVector v c
    getCurrentVectorLoop rest st.1 (if st.2 then vs ++ [i] else vs) (i + 1)

/-- `getCurrentVector` (ConductanceMatrix.cpp lines 163–179).  As in
`getConductanceMatrix`, the second loop indexes `components[i]` by loop counter.
Note the function takes no frequency argument in the source. -/
def getCurrentVector (components : List Component) (numNodes : ℤ) : CVector :=
  let firstPass := getCurrentVectorLoop components (fun _ => 0) [] 0
  (List.range firstPass.2.length).foldl
    (fun v i => vectorHandleVoltageSource v (components.getD i junkComponent))
    firstPass.1

/-- `solveAtFrequency` (ConductanceMatrix.cpp lines 184–193).  The call
`conductanceMatrix.colPivHouseholderQr().solve(currentVector)` is an operation of
the external Eigen library, passed here as the parameter `qrSolve`; the source
returns its numeric output unconditionally (there is no rank check and no error
path). -/
def solveAtFrequency (qrSolve : CMatrix → CVector → CVector) (components : List Component)
    (numNodes : ℤ) (angularFrequency : ℝ) : CVector :=
  qrSolve (getConductanceMatrix components numNodes angularFrequency)
    (getCurrentVector components numNodes)

/-- The components for which the engine's `typeid` dispatch sets the
`isVoltageSource` flag: DC and AC voltage sources. -/
def isVoltageSrc : Component → Bool
  | .DCVoltageSource .. => true
  | .ACVoltageSource .. => true
  | _ => false

/-- The linear two-terminal admittance devices of the hierarchy: resistor,
capacitor, inductor. -/
def isLinearTwoTerminal : Component → Bool
  | .Resistor .. => true
  | .Capacitor .. => true
  | .Inductor .. => true
  | _ => false

/-- Pointwise contribution of one invocation of
`matrixHandleTwoTerminalComponent` on the component's own node list: the four
guarded Eigen writes of lines 11–22 of ConductanceMatrix.cpp turned into
additive terms. -/
def twoTerminalDelta (c : Component) (angFreq : ℝ) (i j : ℤ) : ℂ :=
  let a := (getNodes c).getD 0 0
  let b := (getNodes c).getD 1 0
  (if a ≠ 0 ∧ b ≠ 0 ∧ i = a - 1 ∧ j = b - 1 then -(getConductance c a b angFreq) else 0)
    + (if a ≠ 0 ∧ b ≠ 0 ∧ i = b - 1 ∧ j = a - 1 then -(getConductance c b a angFreq) else 0)
    + (if a ≠ 0 ∧ i = a - 1 ∧ j = a - 1 then getConductance c a b angFreq else 0)
    + (if b ≠ 0 ∧ i = b - 1 ∧ j = b - 1 then getConductance c b a angFreq else 0)

/-- Pointwise contribution of one first-pass step of `updateConductanceMatrix`:
linear two-terminal devices stamp `twoTerminalDelta`, everything else (current
sources, voltage sources, the 4-terminal VCCS) contributes nothing additively. -/
def stampDelta : Component → ℝ → ℤ → ℤ → ℂ
  | c@(.Resistor ..), angFreq, i, j => twoTerminalDelta c angFreq i j
  | c@(.Capacitor ..), angFreq, i, j => twoTerminalDelta c angFreq i j
  | c@(.Inductor ..), angFreq, i, j => twoTerminalDelta c angFreq i j
  | _, _, _, _ => 0

/-- Pointwise contribution of one first-pass step of `updateCurrentVector`:
only AC current sources touch the vector (lines 105–111 of
ConductanceMatrix.cpp). -/
def vecDelta : Component → ℤ → ℂ
  | .ACCurrentSource _ a p ni no, k =>
      (if ni ≠ 0 ∧ k = ni - 1 then -(polar a p) else 0)
        + (if no ≠ 0 ∧ k = no - 1 then polar a p else 0)
  | _, _ => 0

/-- Spec-side definition, from the spec's words (section 8, invariant 1): the
sum of the admittances of the devices incident at a given node.  Used only to
compare the assembled diagonal against the spec's description. -/
def incidentAdmittanceSum (components : List Component) (node : ℤ) (angFreq : ℝ) : ℂ :=
  (components.map (fun c =>
    if node = (getNodes c).getD 0 0 ∨ node = (getNodes c).getD 1 0 then
      getConductance c ((getNodes c).getD 0 0) ((getNodes c).getD 1 0) angFreq
    else 0)).sum

/-- Access instrumentation: the matrix coefficients written by one invocation of
`matrixHandleTwoTerminalComponent` with the given node list, read off the guards
of lines 11–22 of ConductanceMatrix.cpp. -/
def twoTerminalMatrixAccesses (nodes : List ℤ) : List (ℤ × ℤ) :=
  let n0 := nodes.getD 0 0
  let n1 := nodes.getD 1 0
  (if n0 ≠ 0 ∧ n1 ≠ 0 then [(n0 - 1, n1 - 1), (n1 - 1, n0 - 1)] else [])
    ++ (if n0 ≠ 0 then [(n0 - 1, n0 - 1)] else [])
    ++ (if n1 ≠ 0 then [(n1 - 1, n1 - 1)] else [])

/-- Access instrumentation: the matrix rows accessed (zeroed) by one invocation
of `matrixHandleVoltageSource`, read off lines 33–48 of ConductanceMatrix.cpp. -/
def voltageSourceRowAccesses (c : Component) : List ℤ :=
  let np := (getNodes c).getD 0 0
  let nm := (getNodes c).getD 1 0
  if np = nm then []
  else if np ≠ 0 then [np - 1]
  else if nm ≠ 0 then [nm - 1]
  else []

/-- Access instrumentation: the individual matrix coefficients written by one
invocation of `matrixHandleVoltageSource`, read off lines 33–48 of
ConductanceMatrix.cpp. -/
def voltageSourceEntryAccesses (c : Component) : List (ℤ × ℤ) :=
  let np := (getNodes c).getD 0 0
  let nm := (getNodes c).getD 1 0
  if np = nm then []
  else if np ≠ 0 ∧ nm ≠ 0 then [(np - 1, np - 1), (np - 1, nm - 1)]
  else if np ≠ 0 ∧ nm = 0 then [(np - 1, np - 1)]
  else if np = 0 ∧ nm ≠ 0 then [(nm - 1, nm - 1)]
  else []

/-- Access instrumentation: matrix coefficients written by one first-pass step
of `updateConductanceMatrix` (only the two-terminal route writes). -/
def updateConductanceMatrixAccesses (c : Component) : List (ℤ × ℤ) :=
  match c with
  | .DCCurrentSource .. => []
  | .ACCurrentSource .. => []
  | .DCVoltageSource .. => []
  | .ACVoltageSource .. => []
  | c => if (getNodes c).length = 2 then twoTerminalMatrixAccesses (getNodes c) else []

/-- The number of components for which the first pass sets the voltage-source
flag, i.e. `voltageSources.size()` after the first loop. -/
def countVoltageSources (components : List Component) : ℕ :=
  (components.filter (fun c => isVoltageSrc c)).length

/-- Access instrumentation: all matrix coefficients written while assembling the
conductance matrix.  The second loop of `getConductanceMatrix` runs `i` from 0 to
`voltageSources.size() - 1` and passes `components[i]`, so its accesses are those
of `matrixHandleVoltageSource` on the first `countVoltageSources` components. -/
def getConductanceMatrixEntryAccesses (components : List Component) : List (ℤ × ℤ) :=
  (components.map updateConductanceMatrixAccesses).flatten
    ++ ((components.take (countVoltageSources components)).map voltageSourceEntryAccesses).flatten

/-- Access instrumentation: all matrix rows accessed wholesale (the row-zeroing
writes) while assembling the conductance matrix. -/
def getConductanceMatrixRowAccesses (components : List Component) : List ℤ :=
  ((components.take (countVoltageSources components)).map voltageSourceRowAccesses).flatten

/-- Access instrumentation: vector entries written by one invocation of
`vectorHandleACCurrentSource`, read off lines 105–111 of ConductanceMatrix.cpp. -/
def acCurrentSourceVectorAccesses (c : Component) : List ℤ :=
  let n0 := (getNodes c).getD 0 0
  let n1 := (getNodes c).getD 1 0
  (if n0 ≠ 0 then [n0 - 1] else []) ++ (if n1 ≠ 0 then [n1 - 1] else [])

/-- Access instrumentation: vector entries written by one invocation of
`vectorHandleVoltageSource`, read off lines 136–144 of ConductanceMatrix.cpp. -/
def voltageSourceVectorAccesses (c : Component) : List ℤ :=
  let np := (getNodes c).getD 0 0
  let nm := (getNodes c).getD 1 0
  if np = nm then []
  else if np = 0 then [nm - 1]
  else [np - 1]

/-- Access instrumentation: vector entries written by one first-pass step of
`updateCurrentVector`. -/
def updateCurrentVectorAccesses (c : Component) : List ℤ :=
  match c with
  | .ACCurrentSource .. => acCurrentSourceVectorAccesses c
  | _ => []

/-- Access instrumentation: all excitation-vector entries written while
assembling the current vector (first pass plus the second loop over the first
`countVoltageSources` components). -/
def getCurrentVectorAccesses (components : List Component) : List ℤ :=
  (components.map updateCurrentVectorAccesses).flatten
    ++ ((components.take (countVoltageSources components)).map voltageSourceVectorAccesses).flatten

lemma addEntry_apply (m : CMatrix) (i j a b : ℤ) (x : ℂ) :
    addEntry m i j x a b = m a b + if a = i ∧ b = j then x else 0 := by
  unfold addEntry
  split <;> simp

lemma addVecEntry_apply (v : CVector) (i a : ℤ) (x : ℂ) :
    addVecEntry v i x a = v a + if a = i then x else 0 := by
  unfold addVecEntry
  split <;> simp

lemma matrixHandleTwoTerminalComponent_apply (m : CMatrix) (c : Component) (angFreq : ℝ)
    (a b : ℤ) :
    matrixHandleTwoTerminalComponent m c (getNodes c) angFreq a b
      = m a b + twoTerminalDelta c angFreq a b := by
  by_cases h0 : (getNodes c).getD 0 0 = 0 <;> by_cases h1 : (getNodes c).getD 1 0 = 0 <;>
    simp only [matrixHandleTwoTerminalComponent, twoTerminalDelta, addEntry_apply, h0, h1,
      ne_eq, not_true_eq_false, not_false_eq_true, false_and, and_false, true_and, and_true,
      if_true, if_false, ite_false, ite_true, and_self] <;>
    ring

lemma updateConductanceMatrix_additive (m : CMatrix) (c : Component) (angFreq : ℝ)
    (h : isVoltageSrc c = false) :
    updateConductanceMatrix m c angFreq
      = (fun a b => m a b + stampDelta c angFreq a b, false) := by
  cases c with
  | Resistor name r n1 n2 =>
    refine Prod.ext ?_ rfl
    funext a b
    exact matrixHandleTwoTerminalComponent_apply m (.Resistor name r n1 n2) angFreq a b
  | Capacitor name cap n1 n2 =>
    refine Prod.ext ?_ rfl
    funext a b
    exact matrixHandleTwoTerminalComponent_apply m (.Capacitor name cap n1 n2) angFreq a b
  | Inductor name l n1 n2 =>
    refine Prod.ext ?_ rfl
    funext a b
    exact matrixHandleTwoTerminalComponent_apply m (.Inductor name l n1 n2) angFreq a b
  | DCVoltageSource name v np nm => simp [isVoltageSrc] at h
  | ACVoltageSource name a p np nm => simp [isVoltageSrc] at h
  | DCCurrentSource name i ni no =>
    refine Prod.ext ?_ rfl
    funext a b
    simp [updateConductanceMatrix, stampDelta]
  | ACCurrentSource name a p ni no =>
    refine Prod.ext ?_ rfl
    funext a b
    simp [updateConductanceMatrix, stampDelta]
  | VoltageControlledCurrentSource name gm ni no ci co =>
    refine Prod.ext ?_ rfl
    funext a b
    simp [updateConductanceMatrix, getNodes, stampDelta]

lemma updateConductanceMatrix_flag (m : CMatrix) (c : Component) (angFreq : ℝ) :
    (updateConductanceMatrix m c angFreq).2 = isVoltageSrc c := by
  cases c <;> simp [updateConductanceMatrix, isVoltageSrc] <;> split <;> rfl

lemma getConductanceMatrixLoop_no_vs (comps : List Component) (angFreq : ℝ)
    (h : ∀ c ∈ comps, isVoltageSrc c = false) :
    ∀ (m : CMatrix) (vs : List ℕ) (i : ℕ),
      getConductanceMatrixLoop comps angFreq m vs i
        = (fun a b => m a b + (comps.map (fun c => stampDelta c angFreq a b)).sum, vs) := by
  induction comps with
  | nil =>
    intro m vs i
    simp [getConductanceMatrixLoop]
  | cons c rest ih =>
    intro m vs i
    have hc : isVoltageSrc c = false := h c (by simp)
    have hrest : ∀ x ∈ rest, isVoltageSrc x = false := fun x hx => h x (by simp [hx])
    simp only [getConductanceMatrixLoop, updateConductanceMatrix_additive m c angFreq hc,
      Bool.false_eq_true, if_false, ih hrest]
    refine Prod.ext ?_ rfl
    funext a b
    simp [add_assoc]

/-- With no voltage sources in the list, the assembled conductance matrix is the
pointwise sum of the per-component additive stamps. -/
lemma getConductanceMatrix_no_vs (comps : List Component) (numNodes : ℤ) (angFreq : ℝ)
    (h : ∀ c ∈ comps, isVoltageSrc c = false) :
    getConductanceMatrix comps numNodes angFreq
      = fun a b => (comps.map (fun c => stampDelta c angFreq a b)).sum := by
  unfold getConductanceMatrix
  rw [getConductanceMatrixLoop_no_vs comps angFreq h]
  funext a b
  simp

lemma vectorHandleACCurrentSource_apply (v : CVector) (name : String) (a p : ℝ) (ni no : ℤ)
    (k : ℤ) :
    vectorHandleACCurrentSource v (.ACCurrentSource name a p ni no) k
      = v k + vecDelta (.ACCurrentSource name a p ni no) k := by
  simp only [vectorHandleACCurrentSource, vecDelta, getNodes, getProperties,
    List.getD_cons_zero, List.getD_cons_succ]
  split_ifs <;> simp_all [addVecEntry_apply, not_and] <;> ring

lemma updateCurrentVector_additive (v : CVector) (c : Component)
    (h : isVoltageSrc c = false) :
    updateCurrentVector v c = (fun k => v k + vecDelta c k, false) := by
  cases c with
  | ACCurrentSource name a p ni no =>
    refine Prod.ext ?_ rfl
    funext k
    exact vectorHandleACCurrentSource_apply v name a p ni no k
  | DCVoltageSource name vv np nm => simp [isVoltageSrc] at h
  | ACVoltageSource name a p np nm => simp [isVoltageSrc] at h
  | Resistor name r n1 n2 =>
    refine Prod.ext ?_ rfl
    funext k
    simp [updateCurrentVector, vecDelta]
  | Capacitor name cap n1 n2 =>
    refine Prod.ext ?_ rfl
    funext k
    simp [updateCurrentVector, vecDelta]
  | Inductor name l n1 n2 =>
    refine Prod.ext ?_ rfl
    funext k
    simp [updateCurrentVector, vecDelta]
  | DCCurrentSource name i ni no =>
    refine Prod.ext ?_ rfl
    funext k
    simp [updateCurrentVector, vecDelta]
  | VoltageControlledCurrentSource name gm ni no ci co =>
    refine Prod.ext ?_ rfl
    funext k
    simp [updateCurrentVector, vecDelta]

lemma getCurrentVectorLoop_no_vs (comps : List Component)
    (h : ∀ c ∈ comps, isVoltageSrc c = false) :
    ∀ (v : CVector) (vs : List ℕ) (i : ℕ),
      getCurrentVectorLoop comps v vs i
        = (fun k => v k + (comps.map (fun c => vecDelta c k)).sum, vs) := by
  induction comps with
  | nil =>
    intro v vs i
    simp [getCurrentVectorLoop]
  | cons c rest ih =>
    intro v vs i
    have hc : isVoltageSrc c = false := h c (by simp)
    have hrest : ∀ x ∈ rest, isVoltageSrc x = false := fun x hx => h x (by simp [hx])
    simp only [getCurrentVectorLoop, updateCurrentVector_additive v c hc,
      Bool.false_eq_true, if_false, ih hrest]
    refine Prod.ext ?_ rfl
    funext k
    simp [add_assoc]

/-- With no voltage sources in the list, the assembled excitation vector is the
pointwise sum of the per-component additive contributions. -/
lemma getCurrentVector_no_vs (comps : List Component) (numNodes : ℤ)
    (h : ∀ c ∈ comps, isVoltageSrc c = false) :
    getCurrentVector comps numNodes = fun k => (comps.map (fun c => vecDelta c k)).sum := by
  unfold getCurrentVector
  rw [getCurrentVectorLoop_no_vs comps h]
  funext k
  simp

/-- Claim C1: evaluation of `getConductanceMatrix` on the circuit
`[R1 = 2 Ω between nodes 1 and 2, V1 = 5 V DC between node 2 and ground]`
(numNodes = 2, ω = 1).  The claim requires the row replacement to be applied to
the collected voltage source (row 1, V1's `n+` row), giving row 0 = the additive
resistor stamps and row 1 = `[0, 1]`.  The code instead applies
`matrixHandleVoltageSource` to `components[0]` — the resistor — so row 0 is
replaced by the pattern `[1, -1]` built from the resistor's nodes, and row 1
keeps the additive resistor stamp `[-1/2, 1/2]`: the voltage-source row
replacement is mis-applied exactly as the claim says it must not be. -/
theorem C1_voltage_source_row_replacement_eval :
    (getConductanceMatrix
        [Component.Resistor "R1" 2 1 2, Component.DCVoltageSource "V1" 5 2 0] 2 1) 0 0 = 1
    ∧ (getConductanceMatrix
        [Component.Resistor "R1" 2 1 2, Component.DCVoltageSource "V1" 5 2 0] 2 1) 0 1 = -1
    ∧ (getConductanceMatrix
        [Component.Resistor "R1" 2 1 2, Component.DCVoltageSource "V1" 5 2 0] 2 1) 1 0 = -(1 / 2)
    ∧ (getConductanceMatrix
        [Component.Resistor "R1" 2 1 2, Component.DCVoltageSource "V1" 5 2 0] 2 1) 1 1 = 1 / 2 := by
  norm_num [getConductanceMatrix, getConductanceMatrixLoop, updateConductanceMatrix,
    matrixHandleTwoTerminalComponent, matrixHandleVoltageSource, getNodes, getConductance,
    addEntry, setEntry, subSelfRow, junkComponent, List.range_succ]

/-- Claim C5: evaluation of the stamp engine on a voltage-controlled current
source with transconductance 2, output nodes (1,2), control nodes (3,4),
numNodes = 4, ω = 1.  The claim requires `gm` to be added at `G[0,2]` and
`G[1,3]` and subtracted at `G[0,3]` and `G[1,2]`.  The code never stamps a VCCS:
`updateConductanceMatrix` routes it to the two-terminal handler only when its
node list has exactly two entries, but a VCCS has four terminals, so it leaves
the matrix unchanged for any input matrix, and the assembled matrix is
identically zero. -/
theorem C5_vccs_never_stamped_eval :
    (∀ (m : CMatrix) (angFreq : ℝ),
      updateConductanceMatrix m (Component.VoltageControlledCurrentSource "G1" 2 1 2 3 4) angFreq
        = (m, false))
    ∧ ∀ i j : ℤ,
        getConductanceMatrix [Component.VoltageControlledCurrentSource "G1" 2 1 2 3 4] 4 1 i j
          = 0 := by
  constructor
  · intro m angFreq
    simp [updateConductanceMatrix, getNodes]
  · intro i j
    norm_num [getConductanceMatrix, getConductanceMatrixLoop, updateConductanceMatrix,
      getNodes]

/-- Claim C8: on a circuit with a floating node (numNodes = 1, no components),
the assembled MNA matrix is identically zero, hence rank-deficient; and
`solveAtFrequency` has no error path: it returns the external QR solver's
numeric output on exactly this singular matrix, for any solver.  No `Singular`
error, sweep abort, or frequency report exists in the code. -/
theorem C8_no_singular_error_path :
    (∀ i j : ℤ, getConductanceMatrix [] 1 1 i j = 0)
    ∧ ∀ qrSolve : CMatrix → CVector → CVector,
        solveAtFrequency qrSolve [] 1 1
          = qrSolve (fun _ _ => 0) (fun _ => 0) := by
  have hG : getConductanceMatrix [] 1 1 = fun _ _ => (0 : ℂ) := by
    funext i j
    norm_num [getConductanceMatrix, getConductanceMatrixLoop]
  have hI : getCurrentVector [] 1 = fun _ => (0 : ℂ) := by
    funext k
    norm_num [getCurrentVector, getCurrentVectorLoop]
  refine ⟨fun i j => by rw [hG], fun qrSolve => ?_⟩
  rw [solveAtFrequency, hG, hI]

/-- Claim C2 counterexample: a DC voltage source of 5 V between node 1 and
ground.  `getCurrentVector` takes no frequency argument, so the excitation
vector it builds is the one the engine uses at every angular frequency,
including ω = 0; the entry set for the DC source is 0, not the claimed `V = 5`. -/
theorem C2_counterexample :
    (getCurrentVector [Component.DCVoltageSource "V1" 5 1 0] 1) 0 = 0
    ∧ ((0 : ℂ) ≠ 5) := by
  constructor
  · norm_num [getCurrentVector, getCurrentVectorLoop, updateCurrentVector,
      vectorHandleVoltageSource, getNodes, getProperties, setVecEntry, junkComponent,
      List.range_succ]
  · norm_num

/-- Claim C2 (amended): the excitation-vector entry set by
`vectorHandleVoltageSource` is frequency-independent — 0 for a DC voltage
source and `amplitude · e^{j·phase}` for an AC voltage source, whatever the
angular frequency (the assembly functions take no frequency argument at all).
This agrees with the claim at ω > 0 and contradicts it at ω = 0. -/
theorem C2_amended_vector_entries (v : CVector) (name : String) (V a p : ℝ) (np nm : ℤ)
    (h : np ≠ nm) :
    vectorHandleVoltageSource v (Component.DCVoltageSource name V np nm)
        (if np = 0 then nm - 1 else np - 1) = 0
    ∧ vectorHandleVoltageSource v (Component.ACVoltageSource name a p np nm)
        (if np = 0 then nm - 1 else np - 1) = polar a p := by
  constructor <;>
    · simp only [vectorHandleVoltageSource, getNodes, getProperties,
        List.getD_cons_zero, List.getD_cons_succ]
      split_ifs <;> simp_all [setVecEntry]

theorem C2_amended_vector_entries_witness :
    ((1 : ℤ) ≠ 0)
    ∧ vectorHandleVoltageSource (fun _ => 0) (Component.DCVoltageSource "V1" 5 1 0)
        (if (1 : ℤ) = 0 then (0 : ℤ) - 1 else (1 : ℤ) - 1) = 0
    ∧ vectorHandleVoltageSource (fun _ => 0) (Component.ACVoltageSource "V2" 2 3 1 0)
        (if (1 : ℤ) = 0 then (0 : ℤ) - 1 else (1 : ℤ) - 1) = polar 2 3 := by
  refine ⟨by norm_num, ?_, ?_⟩
  · exact (C2_amended_vector_entries (fun _ => 0) "V1" 5 2 3 1 0 (by norm_num)).1
  · exact (C2_amended_vector_entries (fun _ => 0) "V2" 5 2 3 1 0 (by norm_num)).2

/-- Claim C3 counterexample: a DC current source of 3 A from node 1 to node 2
(numNodes = 2).  The claim requires the assembled excitation vector to hold
`-3` at the entry of `nIn = 1`; the code ignores DC current sources entirely
(`updateCurrentVector` dispatches only `ACCurrentSource` to the handler), so the
assembled vector is zero. -/
theorem C3_counterexample :
    (getCurrentVector [Component.DCCurrentSource "I1" 3 1 2] 2) 0 = 0
    ∧ ((0 : ℂ) ≠ -3) := by
  constructor
  · norm_num [getCurrentVector, getCurrentVectorLoop, updateCurrentVector]
  · norm_num

/-- Claim C3 (amended): only the AC variant affects the excitation vector.  For
an AC current source with phasor `Ĩ = polar amplitude phase` between `nIn` and
`nOut` (distinct), the first-pass update subtracts `Ĩ` at entry `nIn − 1` and
adds `Ĩ` at entry `nOut − 1`, skipping the update for a ground node and touching
no other entry; a DC current source leaves the vector unchanged. -/
theorem C3_amended_current_sources (v : CVector) (name : String) (a p curr : ℝ)
    (ni no : ℤ) (h : ni ≠ no) :
    ((ni ≠ 0 →
        (updateCurrentVector v (Component.ACCurrentSource name a p ni no)).1 (ni - 1)
          = v (ni - 1) - polar a p)
      ∧ (no ≠ 0 →
        (updateCurrentVector v (Component.ACCurrentSource name a p ni no)).1 (no - 1)
          = v (no - 1) + polar a p)
      ∧ (ni = 0 →
        (updateCurrentVector v (Component.ACCurrentSource name a p ni no)).1 (ni - 1)
          = v (ni - 1))
      ∧ (no = 0 →
        (updateCurrentVector v (Component.ACCurrentSource name a p ni no)).1 (no - 1)
          = v (no - 1))
      ∧ ∀ k : ℤ, k ≠ ni - 1 → k ≠ no - 1 →
        (updateCurrentVector v (Component.ACCurrentSource name a p ni no)).1 k = v k)
    ∧ updateCurrentVector v (Component.DCCurrentSource name curr ni no) = (v, false) := by
  have hupd : (updateCurrentVector v (Component.ACCurrentSource name a p ni no)).1
      = fun k => v k + vecDelta (Component.ACCurrentSource name a p ni no) k := by
    rw [updateCurrentVector_additive v _ (by simp [isVoltageSrc])]
  have hne : ¬(ni = no) := h
  refine ⟨⟨?_, ?_, ?_, ?_, ?_⟩, ?_⟩
  · intro hni
    rw [hupd]
    simp only [vecDelta]
    split_ifs <;> first | ring1 | (exfalso; omega) | (exfalso; simp_all <;> omega)
  · intro hno
    rw [hupd]
    simp only [vecDelta]
    split_ifs <;> first | ring1 | (exfalso; omega) | (exfalso; simp_all <;> omega)
  · intro hni
    rw [hupd]
    simp only [vecDelta]
    split_ifs <;> first | ring1 | (exfalso; omega) | (exfalso; simp_all <;> omega)
  · intro hno
    rw [hupd]
    simp only [vecDelta]
    split_ifs <;> first | ring1 | (exfalso; omega) | (exfalso; simp_all <;> omega)
  · intro k hk1 hk2
    rw [hupd]
    simp only [vecDelta]
    split_ifs <;> first | ring1 | (exfalso; omega) | (exfalso; simp_all <;> omega)
  · exact updateCurrentVector_additive v _ (by simp [isVoltageSrc]) |>.trans
      (by refine Prod.ext ?_ rfl; funext k; simp [vecDelta])

lemma twoTerminalDelta_symm (c : Component) (angFreq : ℝ) (i j : ℤ) :
    twoTerminalDelta c angFreq i j = twoTerminalDelta c angFreq j i := by
  have hg : getConductance c ((getNodes c).getD 1 0) ((getNodes c).getD 0 0) angFreq
      = getConductance c ((getNodes c).getD 0 0) ((getNodes c).getD 1 0) angFreq := rfl
  simp only [twoTerminalDelta, hg]
  set a := (getNodes c).getD 0 0 with ha
  set b := (getNodes c).getD 1 0 with hb
  have e1 : (a ≠ 0 ∧ b ≠ 0 ∧ j = a - 1 ∧ i = b - 1)
      ↔ (a ≠ 0 ∧ b ≠ 0 ∧ i = b - 1 ∧ j = a - 1) := by tauto
  have e2 : (a ≠ 0 ∧ b ≠ 0 ∧ j = b - 1 ∧ i = a - 1)
      ↔ (a ≠ 0 ∧ b ≠ 0 ∧ i = a - 1 ∧ j = b - 1) := by tauto
  have e3 : (a ≠ 0 ∧ j = a - 1 ∧ i = a - 1) ↔ (a ≠ 0 ∧ i = a - 1 ∧ j = a - 1) := by tauto
  have e4 : (b ≠ 0 ∧ j = b - 1 ∧ i = b - 1) ↔ (b ≠ 0 ∧ i = b - 1 ∧ j = b - 1) := by tauto
  simp only [e1, e2, e3, e4]
  ring

lemma stampDelta_symm (c : Component) (angFreq : ℝ) (i j : ℤ) :
    stampDelta c angFreq i j = stampDelta c angFreq j i := by
  cases c <;> simp only [stampDelta] <;> exact twoTerminalDelta_symm _ angFreq i j

lemma isLinearTwoTerminal_not_vs (c : Component) (h : isLinearTwoTerminal c = true) :
    isVoltageSrc c = false := by
  cases c <;> simp_all [isLinearTwoTerminal, isVoltageSrc]

lemma stampDelta_diag (c : Component) (angFreq : ℝ) (i : ℤ)
    (hc : isLinearTwoTerminal c = true)
    (hd : (getNodes c).getD 0 0 ≠ (getNodes c).getD 1 0) (hi : 0 ≤ i) :
    stampDelta c angFreq i i
      = if i + 1 = (getNodes c).getD 0 0 ∨ i + 1 = (getNodes c).getD 1 0 then
          getConductance c ((getNodes c).getD 0 0) ((getNodes c).getD 1 0) angFreq
        else 0 := by
  cases c <;> simp_all [isLinearTwoTerminal] <;>
    · simp only [stampDelta, twoTerminalDelta, getNodes, getConductance,
        List.getD_cons_zero, List.getD_cons_succ] at *
      split_ifs <;> first | ring1 | (exfalso; omega) | (exfalso; simp_all <;> omega)

/-- Claim C6 counterexample: a single 1 Ω resistor with both terminals on node 1
(numNodes = 1, ω = 1) is a circuit of linear two-terminal admittances only, yet
its assembled diagonal entry `G[0,0]` is 0 (the two `+y` diagonal adds are
cancelled by the two `-y` off-diagonal writes, which land on the same cell),
while the sum of admittances of devices incident at node 1 is 1. -/
theorem C6_counterexample :
    getConductanceMatrix [Component.Resistor "R1" 1 1 1] 1 1 0 0 = 0
    ∧ incidentAdmittanceSum [Component.Resistor "R1" 1 1 1] 1 1 = 1
    ∧ ((0 : ℂ) ≠ 1) := by
  refine ⟨?_, ?_, by norm_num⟩
  · norm_num [getConductanceMatrix, getConductanceMatrixLoop, updateConductanceMatrix,
      matrixHandleTwoTerminalComponent, getNodes, getConductance, addEntry]
  · norm_num [incidentAdmittanceSum, getNodes, getConductance]

/-- Claim C6 (amended): for a circuit consisting only of linear two-terminal
admittances, the assembled conductance matrix is symmetric at every angular
frequency; and when additionally every device's two terminal nodes are distinct
(the counterexample above forces this restriction), every diagonal entry
`G[i,i]` with `0 ≤ i < numNodes` equals the sum of the admittances of the
devices incident at node `i + 1`. -/
theorem C6_amended_symmetry_and_diagonal (components : List Component) (numNodes : ℤ)
    (angFreq : ℝ) (hlin : ∀ c ∈ components, isLinearTwoTerminal c = true) :
    (∀ i j : ℤ, getConductanceMatrix components numNodes angFreq i j
      = getConductanceMatrix components numNodes angFreq j i)
    ∧ ((∀ c ∈ components, (getNodes c).getD 0 0 ≠ (getNodes c).getD 1 0) →
        ∀ i : ℤ, 0 ≤ i → i < numNodes →
          getConductanceMatrix components numNodes angFreq i i
            = incidentAdmittanceSum components (i + 1) angFreq) := by
  have hnvs : ∀ c ∈ components, isVoltageSrc c = false :=
    fun c hc => isLinearTwoTerminal_not_vs c (hlin c hc)
  rw [getConductanceMatrix_no_vs components numNodes angFreq hnvs]
  constructor
  · intro i j
    have : components.map (fun c => stampDelta c angFreq i j)
        = components.map (fun c => stampDelta c angFreq j i) :=
      List.map_congr_left (fun c _ => stampDelta_symm c angFreq i j)
    simp only [this]
  · intro hd i hi _hub
    have : components.map (fun c => stampDelta c angFreq i i)
        = components.map (fun c =>
            if i + 1 = (getNodes c).getD 0 0 ∨ i + 1 = (getNodes c).getD 1 0 then
              getConductance c ((getNodes c).getD 0 0) ((getNodes c).getD 1 0) angFreq
            else 0) :=
      List.map_congr_left (fun c hc => stampDelta_diag c angFreq i (hlin c hc) (hd c hc) hi)
    simp only [this, incidentAdmittanceSum]

theorem C6_amended_symmetry_and_diagonal_witness :
    (∀ c ∈ [Component.Resistor "R1" 1 1 2], isLinearTwoTerminal c = true)
    ∧ (∀ c ∈ [Component.Resistor "R1" 1 1 2],
        (getNodes c).getD 0 0 ≠ (getNodes c).getD 1 0)
    ∧ getConductanceMatrix [Component.Resistor "R1" 1 1 2] 2 1 0 1
        = getConductanceMatrix [Component.Resistor "R1" 1 1 2] 2 1 1 0
    ∧ getConductanceMatrix [Component.Resistor "R1" 1 1 2] 2 1 0 0
        = incidentAdmittanceSum [Component.Resistor "R1" 1 1 2] 1 1 := by
  have hlin : ∀ c ∈ [Component.Resistor "R1" 1 1 2], isLinearTwoTerminal c = true := by
    simp [isLinearTwoTerminal]
  have hd : ∀ c ∈ [Component.Resistor "R1" 1 1 2],
      (getNodes c).getD 0 0 ≠ (getNodes c).getD 1 0 := by
    simp [getNodes]
  have h := C6_amended_symmetry_and_diagonal [Component.Resistor "R1" 1 1 2] 2 1 hlin
  exact ⟨hlin, hd, h.1 0 1, by
    have := h.2 hd 0 (by norm_num) (by norm_num)
    simpa using this⟩

/-- Claim C7: for circuits containing no voltage sources, assembly of both the
conductance matrix and the excitation vector is invariant under permutation of
the component list (all first-pass stamps are additive and the voltage-source
replacement pass is empty). -/
theorem C7_insertion_order_irrelevant (comps comps2 : List Component) (numNodes : ℤ)
    (angFreq : ℝ) (hnvs : ∀ c ∈ comps, isVoltageSrc c = false)
    (hperm : comps.Perm comps2) :
    getConductanceMatrix comps numNodes angFreq
      = getConductanceMatrix comps2 numNodes angFreq
    ∧ getCurrentVector comps numNodes = getCurrentVector comps2 numNodes := by
  have hnvs2 : ∀ c ∈ comps2, isVoltageSrc c = false :=
    fun c hc => hnvs c (hperm.mem_iff.mpr hc)
  constructor
  · rw [getConductanceMatrix_no_vs comps numNodes angFreq hnvs,
      getConductanceMatrix_no_vs comps2 numNodes angFreq hnvs2]
    funext a b
    exact (hperm.map (fun c => stampDelta c angFreq a b)).sum_eq
  · rw [getCurrentVector_no_vs comps numNodes hnvs,
      getCurrentVector_no_vs comps2 numNodes hnvs2]
    funext k
    exact (hperm.map (fun c => vecDelta c k)).sum_eq

theorem C7_insertion_order_irrelevant_witness :
    (∀ c ∈ [Component.Resistor "R1" 1 1 2, Component.ACCurrentSource "I1" 2 0 1 2],
      isVoltageSrc c = false)
    ∧ ([Component.Resistor "R1" 1 1 2, Component.ACCurrentSource "I1" 2 0 1 2].Perm
        [Component.ACCurrentSource "I1" 2 0 1 2, Component.Resistor "R1" 1 1 2])
    ∧ getConductanceMatrix
        [Component.Resistor "R1" 1 1 2, Component.ACCurrentSource "I1" 2 0 1 2] 2 1
      = getConductanceMatrix
        [Component.ACCurrentSource "I1" 2 0 1 2, Component.Resistor "R1" 1 1 2] 2 1
    ∧ getCurrentVector
        [Component.Resistor "R1" 1 1 2, Component.ACCurrentSource "I1" 2 0 1 2] 2
      = getCurrentVector
        [Component.ACCurrentSource "I1" 2 0 1 2, Component.Resistor "R1" 1 1 2] 2 := by
  have hnvs : ∀ c ∈ [Component.Resistor "R1" 1 1 2, Component.ACCurrentSource "I1" 2 0 1 2],
      isVoltageSrc c = false := by
    simp [isVoltageSrc]
  have hperm : [Component.Resistor "R1" 1 1 2, Component.ACCurrentSource "I1" 2 0 1 2].Perm
      [Component.ACCurrentSource "I1" 2 0 1 2, Component.Resistor "R1" 1 1 2] :=
    List.Perm.swap (Component.ACCurrentSource "I1" 2 0 1 2) (Component.Resistor "R1" 1 1 2) []
  have h := C7_insertion_order_irrelevant
    [Component.Resistor "R1" 1 1 2, Component.ACCurrentSource "I1" 2 0 1 2]
    [Component.ACCurrentSource "I1" 2 0 1 2, Component.Resistor "R1" 1 1 2] 2 1 hnvs hperm
  exact ⟨hnvs, hperm, h.1, h.2⟩

/-- Claim C4: for a two-terminal linear admittance `y(ω)` between nodes `a` and
`b` (a component whose `getConductance` returns `y` at ω, in either node order),
stamping adds `y` to `G[a-1,a-1]` and `G[b-1,b-1]` (skipping the add when the
node is ground), subtracts `y` from `G[a-1,b-1]` and `G[b-1,a-1]` exactly when
both `a` and `b` are non-ground (the C++ condition `nodes[1 != 0]` evaluates to
`nodes[1] != 0`, so this is what the code implements), and touches no other
entry. -/
theorem C4_two_terminal_stamp (m : CMatrix) (c : Component) (a b : ℤ) (angFreq : ℝ) (y : ℂ)
    (hab : a ≠ b) (hy : ∀ n1 n2 : ℤ, getConductance c n1 n2 angFreq = y) :
    (a ≠ 0 →
      matrixHandleTwoTerminalComponent m c [a, b] angFreq (a - 1) (a - 1)
        = m (a - 1) (a - 1) + y)
    ∧ (b ≠ 0 →
      matrixHandleTwoTerminalComponent m c [a, b] angFreq (b - 1) (b - 1)
        = m (b - 1) (b - 1) + y)
    ∧ ((a ≠ 0 ∧ b ≠ 0) →
      matrixHandleTwoTerminalComponent m c [a, b] angFreq (a - 1) (b - 1)
          = m (a - 1) (b - 1) - y
        ∧ matrixHandleTwoTerminalComponent m c [a, b] angFreq (b - 1) (a - 1)
          = m (b - 1) (a - 1) - y)
    ∧ (¬(a ≠ 0 ∧ b ≠ 0) →
      matrixHandleTwoTerminalComponent m c [a, b] angFreq (a - 1) (b - 1)
          = m (a - 1) (b - 1)
        ∧ matrixHandleTwoTerminalComponent m c [a, b] angFreq (b - 1) (a - 1)
          = m (b - 1) (a - 1))
    ∧ ∀ i j : ℤ, ¬(i = a - 1 ∧ j = a - 1) → ¬(i = b - 1 ∧ j = b - 1) →
        ¬(i = a - 1 ∧ j = b - 1) → ¬(i = b - 1 ∧ j = a - 1) →
        matrixHandleTwoTerminalComponent m c [a, b] angFreq i j = m i j := by
  have happ : ∀ i j : ℤ,
      matrixHandleTwoTerminalComponent m c [a, b] angFreq i j
        = m i j
          + ((if a ≠ 0 ∧ b ≠ 0 ∧ i = a - 1 ∧ j = b - 1 then -y else 0)
            + (if a ≠ 0 ∧ b ≠ 0 ∧ i = b - 1 ∧ j = a - 1 then -y else 0)
            + (if a ≠ 0 ∧ i = a - 1 ∧ j = a - 1 then y else 0)
            + (if b ≠ 0 ∧ i = b - 1 ∧ j = b - 1 then y else 0)) := by
    intro i j
    by_cases h0 : a = 0 <;> by_cases h1 : b = 0 <;>
      simp only [matrixHandleTwoTerminalComponent, addEntry_apply, hy, h0, h1,
        List.getD_cons_zero, List.getD_cons_succ,
        ne_eq, not_true_eq_false, not_false_eq_true, false_and, and_false, true_and, and_true,
        if_true, if_false, ite_false, ite_true, and_self] <;>
      ring
  refine ⟨?_, ?_, ?_, ?_, ?_⟩
  · intro ha
    rw [happ]
    split_ifs <;> first | ring1 | (exfalso; omega) | (exfalso; simp_all <;> omega)
  · intro hb
    rw [happ]
    split_ifs <;> first | ring1 | (exfalso; omega) | (exfalso; simp_all <;> omega)
  · intro hcond
    obtain ⟨ha, hb⟩ := hcond
    constructor <;>
      · rw [happ]
        split_ifs <;> first | ring1 | (exfalso; omega) | (exfalso; simp_all <;> omega)
  · intro hcond
    constructor <;>
      · rw [happ]
        split_ifs <;> first | ring1 | (exfalso; omega) | (exfalso; simp_all <;> omega)
  · intro i j hij1 hij2 hij3 hij4
    rw [happ]
    split_ifs <;> first | ring1 | (exfalso; omega) | (exfalso; simp_all <;> omega)

theorem C4_two_terminal_stamp_witness :
    ((1 : ℤ) ≠ 2)
    ∧ (∀ n1 n2 : ℤ, getConductance (Component.Resistor "R1" 1 1 2) n1 n2 1 = 1)
    ∧ matrixHandleTwoTerminalComponent (fun _ _ => 0) (Component.Resistor "R1" 1 1 2)
        [1, 2] 1 0 0 = (fun _ _ => (0 : ℂ)) 0 0 + 1
    ∧ matrixHandleTwoTerminalComponent (fun _ _ => 0) (Component.Resistor "R1" 1 1 2)
        [1, 2] 1 0 1 = (fun _ _ => (0 : ℂ)) 0 1 - 1 := by
  have hy : ∀ n1 n2 : ℤ, getConductance (Component.Resistor "R1" 1 1 2) n1 n2 1 = 1 := by
    intro n1 n2
    norm_num [getConductance]
  have hthm := C4_two_terminal_stamp (fun _ _ => 0) (Component.Resistor "R1" 1 1 2) 1 2 1 1
    (by norm_num) hy
  exact ⟨by norm_num, hy, hthm.1 (by norm_num), (hthm.2.2.1 ⟨by norm_num, by norm_num⟩).1⟩

/-- Claim C9: `matrixHandleVoltageSource` on a voltage source whose two nodes
differ modifies only the replaced row — the row of `n+` when `n+` is non-ground,
otherwise the row of `n−`; every entry of every other row is unchanged.  A
source with `n+ = n−` leaves both the matrix and (via
`vectorHandleVoltageSource`) the excitation vector completely unchanged. -/
theorem C9_voltage_source_frame (m : CMatrix) (v : CVector) (c : Component) (np nm : ℤ)
    (hvs : isVoltageSrc c = true) (hn : getNodes c = [np, nm]) :
    (np ≠ nm → ∀ i : ℤ, i ≠ (if np ≠ 0 then np - 1 else nm - 1) → ∀ j : ℤ,
      matrixHandleVoltageSource m c i j = m i j)
    ∧ (np = nm → matrixHandleVoltageSource m c = m ∧ vectorHandleVoltageSource v c = v) := by
  constructor
  · intro hne i hi j
    simp only [matrixHandleVoltageSource, hn, List.getD_cons_zero, List.getD_cons_succ]
    split_ifs with h1 h2 h3 h4 <;>
      first
      | rfl
      | (simp only [setEntry, subSelfRow]
         split_ifs <;> first | rfl | (exfalso; simp_all <;> omega))
  · intro heq
    constructor
    · simp only [matrixHandleVoltageSource, hn, List.getD_cons_zero, List.getD_cons_succ]
      rw [if_pos heq]
    · simp only [vectorHandleVoltageSource, hn, List.getD_cons_zero, List.getD_cons_succ]
      rw [if_pos heq]

theorem C9_voltage_source_frame_witness :
    (isVoltageSrc (Component.DCVoltageSource "V1" 5 2 0) = true)
    ∧ (getNodes (Component.DCVoltageSource "V1" 5 2 0) = [2, 0])
    ∧ ((2 : ℤ) ≠ 0)
    ∧ matrixHandleVoltageSource (fun _ _ => 3) (Component.DCVoltageSource "V1" 5 2 0) 0 5 = 3
    ∧ (matrixHandleVoltageSource (fun _ _ => 3) (Component.DCVoltageSource "V1" 5 0 0)
          = (fun _ _ => 3)
        ∧ vectorHandleVoltageSource (fun _ => 7) (Component.DCVoltageSource "V1" 5 0 0)
          = (fun _ => 7)) := by
  refine ⟨rfl, rfl, by norm_num, ?_, ?_⟩
  · have h := (C9_voltage_source_frame (fun _ _ => 3) (fun _ => 7)
      (Component.DCVoltageSource "V1" 5 2 0) 2 0 rfl rfl).1 (by norm_num) 0
    have h0 : (0 : ℤ) ≠ (if (2 : ℤ) ≠ 0 then 2 - 1 else 0 - 1) := by norm_num
    exact h h0 5
  · exact (C9_voltage_source_frame (fun _ _ => 3) (fun _ => 7)
      (Component.DCVoltageSource "V1" 5 0 0) 0 0 rfl rfl).2 rfl

lemma getD_zero_mem_getNodes (c : Component) : (getNodes c).getD 0 0 ∈ getNodes c := by
  cases c <;> simp [getNodes]

lemma getD_one_mem_getNodes (c : Component) : (getNodes c).getD 1 0 ∈ getNodes c := by
  cases c <;> simp [getNodes]

lemma twoTerminalMatrixAccesses_bounds (nodes : List ℤ) (numNodes : ℤ)
    (h0l : 0 ≤ nodes.getD 0 0) (h0r : nodes.getD 0 0 ≤ numNodes)
    (h1l : 0 ≤ nodes.getD 1 0) (h1r : nodes.getD 1 0 ≤ numNodes) :
    ∀ p ∈ twoTerminalMatrixAccesses nodes,
      0 ≤ p.1 ∧ p.1 < numNodes ∧ 0 ≤ p.2 ∧ p.2 < numNodes := by
  intro p hp
  by_cases hc0 : nodes.getD 0 0 = 0 <;> by_cases hc1 : nodes.getD 1 0 = 0 <;>
    simp only [twoTerminalMatrixAccesses, hc0, hc1, ne_eq, not_true_eq_false,
      not_false_eq_true, false_and, and_false, true_and, and_true, and_self, if_true, if_false,
      ite_true, ite_false, List.nil_append, List.append_nil, List.mem_append, List.mem_cons,
      List.not_mem_nil, or_false, false_or] at hp
  · subst hp
    refine ⟨by omega, by omega, by omega, by omega⟩
  · subst hp
    refine ⟨by omega, by omega, by omega, by omega⟩
  · rcases hp with ((rfl | rfl) | rfl) | rfl <;>
      exact ⟨by omega, by omega, by omega, by omega⟩

lemma voltageSourceEntryAccesses_bounds (c : Component) (numNodes : ℤ)
    (h0l : 0 ≤ (getNodes c).getD 0 0) (h0r : (getNodes c).getD 0 0 ≤ numNodes)
    (h1l : 0 ≤ (getNodes c).getD 1 0) (h1r : (getNodes c).getD 1 0 ≤ numNodes) :
    ∀ p ∈ voltageSourceEntryAccesses c,
      0 ≤ p.1 ∧ p.1 < numNodes ∧ 0 ≤ p.2 ∧ p.2 < numNodes := by
  intro p hp
  simp only [voltageSourceEntryAccesses] at hp
  split_ifs at hp <;>
    simp only [List.mem_cons, List.not_mem_nil, or_false] at hp
  · rcases hp with rfl | rfl <;> exact ⟨by omega, by omega, by omega, by omega⟩
  · subst hp
    exact ⟨by omega, by omega, by omega, by omega⟩
  · subst hp
    exact ⟨by omega, by omega, by omega, by omega⟩

lemma voltageSourceRowAccesses_bounds (c : Component) (numNodes : ℤ)
    (h0l : 0 ≤ (getNodes c).getD 0 0) (h0r : (getNodes c).getD 0 0 ≤ numNodes)
    (h1l : 0 ≤ (getNodes c).getD 1 0) (h1r : (getNodes c).getD 1 0 ≤ numNodes) :
    ∀ r ∈ voltageSourceRowAccesses c, 0 ≤ r ∧ r < numNodes := by
  intro r hr
  simp only [voltageSourceRowAccesses] at hr
  split_ifs at hr <;> simp only [List.mem_cons, List.not_mem_nil, or_false] at hr <;>
    subst hr <;> exact ⟨by omega, by omega⟩

lemma voltageSourceVectorAccesses_bounds (c : Component) (numNodes : ℤ)
    (h0l : 0 ≤ (getNodes c).getD 0 0) (h0r : (getNodes c).getD 0 0 ≤ numNodes)
    (h1l : 0 ≤ (getNodes c).getD 1 0) (h1r : (getNodes c).getD 1 0 ≤ numNodes) :
    ∀ k ∈ voltageSourceVectorAccesses c, 0 ≤ k ∧ k < numNodes := by
  intro k hk
  simp only [voltageSourceVectorAccesses] at hk
  split_ifs at hk <;> simp only [List.mem_cons, List.not_mem_nil, or_false] at hk <;>
    subst hk <;> exact ⟨by omega, by omega⟩

lemma acCurrentSourceVectorAccesses_bounds (c : Component) (numNodes : ℤ)
    (h0l : 0 ≤ (getNodes c).getD 0 0) (h0r : (getNodes c).getD 0 0 ≤ numNodes)
    (h1l : 0 ≤ (getNodes c).getD 1 0) (h1r : (getNodes c).getD 1 0 ≤ numNodes) :
    ∀ k ∈ acCurrentSourceVectorAccesses c, 0 ≤ k ∧ k < numNodes := by
  intro k hk
  simp only [acCurrentSourceVectorAccesses, List.mem_append] at hk
  rcases hk with hk | hk <;> split_ifs at hk <;>
    simp only [List.mem_cons, List.not_mem_nil, or_false] at hk <;>
    subst hk <;> exact ⟨by omega, by omega⟩

/-- Claim C10: if every node id returned by every component lies between 0 and
`numNodes` inclusive, and every component's node list has at least two entries
(always true in this hierarchy, stated as the claim states it), then every
Eigen coefficient access performed while assembling the conductance matrix and
the excitation vector is in bounds: every individually written matrix entry,
every wholesale-accessed matrix row, and every written vector entry has its
index in `[0, numNodes)` — each being a non-ground node id minus 1.  This holds
for the second (row-replacement) loops as well, even though they index
`components[i]` by loop counter: the range hypothesis covers every component. -/
theorem C10_assembly_accesses_in_bounds (components : List Component) (numNodes : ℤ)
    (hrange : ∀ c ∈ components, ∀ n ∈ getNodes c, 0 ≤ n ∧ n ≤ numNodes)
    (_hlen : ∀ c ∈ components, 2 ≤ (getNodes c).length) :
    (∀ p ∈ getConductanceMatrixEntryAccesses components,
      0 ≤ p.1 ∧ p.1 < numNodes ∧ 0 ≤ p.2 ∧ p.2 < numNodes)
    ∧ (∀ r ∈ getConductanceMatrixRowAccesses components, 0 ≤ r ∧ r < numNodes)
    ∧ (∀ k ∈ getCurrentVectorAccesses components, 0 ≤ k ∧ k < numNodes) := by
  have hbound : ∀ c ∈ components,
      0 ≤ (getNodes c).getD 0 0 ∧ (getNodes c).getD 0 0 ≤ numNodes
        ∧ 0 ≤ (getNodes c).getD 1 0 ∧ (getNodes c).getD 1 0 ≤ numNodes := by
    intro c hc
    obtain ⟨h0a, h0b⟩ := hrange c hc _ (getD_zero_mem_getNodes c)
    obtain ⟨h1a, h1b⟩ := hrange c hc _ (getD_one_mem_getNodes c)
    exact ⟨h0a, h0b, h1a, h1b⟩
  refine ⟨?_, ?_, ?_⟩
  · intro p hp
    simp only [getConductanceMatrixEntryAccesses, List.mem_append, List.mem_flatten,
      List.mem_map] at hp
    rcases hp with ⟨l, ⟨c, hc, rfl⟩, hpl⟩ | ⟨l, ⟨c, hc, rfl⟩, hpl⟩
    · obtain ⟨h0a, h0b, h1a, h1b⟩ := hbound c hc
      cases c <;> simp [updateConductanceMatrixAccesses, getNodes] at hpl <;>
        exact twoTerminalMatrixAccesses_bounds _ numNodes h0a h0b h1a h1b p hpl
    · have hc2 : c ∈ components := List.take_subset _ _ hc
      obtain ⟨h0a, h0b, h1a, h1b⟩ := hbound c hc2
      exact voltageSourceEntryAccesses_bounds c numNodes h0a h0b h1a h1b p hpl
  · intro r hr
    simp only [getConductanceMatrixRowAccesses, List.mem_flatten, List.mem_map] at hr
    rcases hr with ⟨l, ⟨c, hc, rfl⟩, hrl⟩
    have hc2 : c ∈ components := List.take_subset _ _ hc
    obtain ⟨h0a, h0b, h1a, h1b⟩ := hbound c hc2
    exact voltageSourceRowAccesses_bounds c numNodes h0a h0b h1a h1b r hrl
  · intro k hk
    simp only [getCurrentVectorAccesses, List.mem_append, List.mem_flatten,
      List.mem_map] at hk
    rcases hk with ⟨l, ⟨c, hc, rfl⟩, hkl⟩ | ⟨l, ⟨c, hc, rfl⟩, hkl⟩
    · obtain ⟨h0a, h0b, h1a, h1b⟩ := hbound c hc
      cases c <;> simp only [updateCurrentVectorAccesses, List.not_mem_nil] at hkl <;>
        exact acCurrentSourceVectorAccesses_bounds _ numNodes h0a h0b h1a h1b k hkl
    · have hc2 : c ∈ components := List.take_subset _ _ hc
      obtain ⟨h0a, h0b, h1a, h1b⟩ := hbound c hc2
      exact voltageSourceVectorAccesses_bounds c numNodes h0a h0b h1a h1b k hkl

theorem C10_assembly_accesses_in_bounds_witness :
    (∀ c ∈ [Component.Resistor "R1" 1 1 2, Component.DCVoltageSource "V1" 5 2 0],
      ∀ n ∈ getNodes c, 0 ≤ n ∧ n ≤ 2)
    ∧ (∀ c ∈ [Component.Resistor "R1" 1 1 2, Component.DCVoltageSource "V1" 5 2 0],
        2 ≤ (getNodes c).length)
    ∧ (∀ p ∈ getConductanceMatrixEntryAccesses
          [Component.Resistor "R1" 1 1 2, Component.DCVoltageSource "V1" 5 2 0],
        0 ≤ p.1 ∧ p.1 < 2 ∧ 0 ≤ p.2 ∧ p.2 < 2)
    ∧ (∀ r ∈ getConductanceMatrixRowAccesses
          [Component.Resistor "R1" 1 1 2, Component.DCVoltageSource "V1" 5 2 0],
        0 ≤ r ∧ r < 2)
    ∧ (∀ k ∈ getCurrentVectorAccesses
          [Component.Resistor "R1" 1 1 2, Component.DCVoltageSource "V1" 5 2 0],
        0 ≤ k ∧ k < 2) := by
  have hrange : ∀ c ∈ [Component.Resistor "R1" 1 1 2, Component.DCVoltageSource "V1" 5 2 0],
      ∀ n ∈ getNodes c, 0 ≤ n ∧ n ≤ 2 := by
    intro c hc
    fin_cases hc <;>
      · intro n hn
        simp only [getNodes, List.mem_cons, List.not_mem_nil, or_false] at hn
        rcases hn with rfl | rfl <;> omega
  have hlen : ∀ c ∈ [Component.Resistor "R1" 1 1 2, Component.DCVoltageSource "V1" 5 2 0],
      2 ≤ (getNodes c).length := by
    intro c hc
    fin_cases hc <;> simp [getNodes]
  have h := C10_assembly_accesses_in_bounds
    [Component.Resistor "R1" 1 1 2, Component.DCVoltageSource "V1" 5 2 0] 2 hrange hlen
  exact ⟨hrange, hlen, h.1, h.2.1, h.2.2⟩

theorem C3_amended_current_sources_witness :
    ((1 : ℤ) ≠ 2)
    ∧ (updateCurrentVector (fun _ => 0) (Component.ACCurrentSource "I1" 2 0 1 2)).1 0
        = 0 - polar 2 0
    ∧ updateCurrentVector (fun _ => (0 : ℂ)) (Component.DCCurrentSource "I2" 3 1 2)
        = (fun _ => 0, false) := by
  refine ⟨by norm_num, ?_, ?_⟩
  · exact (C3_amended_current_sources (fun _ => 0) "I1" 2 0 3 1 2 (by norm_num)).1.1
      (by norm_num)
  · exact (C3_amended_current_sources (fun _ => 0) "I2" 2 0 3 1 2 (by norm_num)).2

end SpiceSim
